import Mathlib

/-!
Verification of the xcom utility (bulk file-transfer engine and
recycle-bin selection/enumeration subsystem).

Strings from the Rust source are modelled as `List Char`; machine
integers as `Nat`/`Int` with explicit bounds where overflow matters.
OS capabilities (filesystem directory listing, the bulk shell-transfer
primitive, the deleted-items store) are passed in explicitly as data,
so every definition is executable.
-/

namespace Xcom

deriving instance DecidableEq for Except

/-- Strings are modelled as lists of characters. -/
abbrev Str := List Char

/-- Convenience conversion from a Lean string literal. -/
def str (s : String) : Str := s.data

/-- Whitespace test used by `trim` (Rust `char::is_whitespace`). -/
def isWs (c : Char) : Bool := c.isWhitespace

/-- Model of Rust `str::trim`: drop whitespace from both ends. -/
def trim (s : Str) : Str := ((s.dropWhile isWs).reverse.dropWhile isWs).reverse

/-- Model of Rust `str::split(sep)` for a single-character separator:
splitting the empty string yields one empty part, and every occurrence
of the separator starts a new part. -/
def splitOnChar (sep : Char) : Str → List Str
  | [] => [[]]
  | c :: rest =>
    let r := splitOnChar sep rest
    if c = sep then [] :: r
    else
      match r with
      | [] => [[c]]
      | h :: t => (c :: h) :: t

/-- Accumulating digit parser: succeeds only when every remaining
character is an ASCII digit. -/
def parseDigitsAux : Str → Nat → Option Nat
  | [], acc => some acc
  | c :: rest, acc =>
    if c.isDigit then parseDigitsAux rest (acc * 10 + (c.toNat - 48)) else none

/-- Model of Rust `str::parse::<usize>()`: an optional leading plus sign,
then one or more ASCII digits, with failure on values that do not fit in
64 bits (the target is 64-bit Windows). -/
def parseUsize (s : Str) : Option Nat :=
  let t : Str :=
    match s with
    | '+' :: rest => rest
    | _ => s
  match t with
  | [] => none
  | _ =>
    match parseDigitsAux t 0 with
    | some n => if n < 2 ^ 64 then some n else none
    | none => none

/-! Selection parser (`parse_indices` in `src/bin/recyclebin.rs`). -/

/-- The guard applied to every candidate one-based value: keep it only
when it lies in the window from 1 to `count`, pushing its zero-based
form. -/
def keepIdx (count num : Nat) : Option Nat :=
  if 0 < num ∧ num ≤ count then some (num - 1) else none

/-- One comma-separated part: trim it, parse it as an unsigned integer,
and apply the window guard; parse failures are silently skipped. -/
def parseKeep (count : Nat) (part : Str) : Option Nat :=
  match parseUsize (trim part) with
  | some num => keepIdx count num
  | none => none

/-- Body of the `indices` accumulator of `parse_indices`: the comma
branch, the range branch and the single-number branch, each pushing the
zero-based survivors in iteration order (rendered as `filterMap`). -/
def parse_indices_raw (input : Str) (count : Nat) : List Nat :=
  if input.contains ',' then
    (splitOnChar ',' input).filterMap (parseKeep count)
  else if input.contains '-' then
    let parts := splitOnChar '-' input
    if parts.length = 2 then
      match parseUsize (trim (parts.getD 0 [])), parseUsize (trim (parts.getD 1 [])) with
      | some start, some stop => (List.range' start (stop + 1 - start)).filterMap (keepIdx count)
      | _, _ => []
    else []
  else
    match parseUsize input with
    | some num => (keepIdx count num).toList
    | none => []

/-- Model of `parse_indices`: collect the raw indices, then
`indices.sort()` (stable ascending sort) followed by `indices.dedup()`
(removal of adjacent duplicates). -/
def parse_indices (input : Str) (count : Nat) : List Nat :=
  ((parse_indices_raw input count).insertionSort (· ≤ ·)).destutter (· ≠ ·)

/-! Batch transfer engine and path expansion (`src/lib.rs`). -/

/-- File operation type (`FileOperation` in `src/lib.rs`). -/
inductive FileOperation : Type
  | Copy : FileOperation
  | Move : FileOperation
deriving DecidableEq

/-- Model of `FileOperation::as_str`. -/
def FileOperation.as_str : FileOperation → Str
  | .Copy => str "COPY"
  | .Move => str "MOVE"

/-- Observable result of one invocation of the OS bulk-transfer
capability (`SHFileOperationW`): the numeric status code it returns and
whether it set the `fAnyOperationsAborted` flag. -/
structure ShellOpResult where
  code : Int
  aborted : Bool
deriving DecidableEq

/-- The bulk-transfer capability, as data: what the OS call would
return for a given source list, destination and operation. -/
abbrev ShellCap := List Str → Str → FileOperation → ShellOpResult

/-- Observable side effects of the library functions: appended audit-log
lines (`logs`) and invocations of the bulk-transfer capability. -/
inductive Effect : Type
  | log : Str → Effect
  | shellCall : List Str → Str → FileOperation → Effect
deriving DecidableEq

/-- Lowercase hex digit of a value below 16. -/
def hexDigit (n : Nat) : Char := if n < 10 then Char.ofNat (48 + n) else Char.ofNat (87 + n)

/-- Eight-digit lowercase hex rendering of the low 32 bits, modelling
the Rust format specifier used for the failure message. -/
def hex8 (u : Nat) : Str := ((List.range 8).reverse).map fun i => hexDigit (u / 16 ^ i % 16)

/-- Failure message of `win32_shell_operation`: the status code printed
as the two's-complement 32-bit value in hex. -/
def shellFailMsg (code : Int) : Str :=
  str "SHFileOperation failed: 0x" ++ hex8 (code % (2 ^ 32 : Int)).toNat

/-- Model of `win32_shell_operation` (Windows build): invoke the
bulk-transfer capability once; if the aborted flag is set return
`Ok(false)` before looking at the status code; otherwise a non-zero
status code is logged and returned as an error, and a zero status code
is `Ok(true)`.  The returned effect list records the capability call
and any log writes, in order. -/
def win32_shell_operation (cap : ShellCap) (sources : List Str) (dest : Str)
    (operation : FileOperation) : Except Str Bool × List Effect :=
  let r := cap sources dest operation
  if r.aborted then
    (Except.ok false, [Effect.shellCall sources dest operation])
  else if r.code ≠ 0 then
    (Except.error (shellFailMsg r.code),
      [Effect.shellCall sources dest operation, Effect.log (shellFailMsg r.code)])
  else
    (Except.ok true, [Effect.shellCall sources dest operation])

/-- The filesystem directory-listing capability: `read_dir` on a
directory path either fails with an OS error text or yields the list of
entry paths (already joined with the directory, as `entry.path()` is). -/
structure FS where
  readDir : Str → Except Str (List Str)

/-- Error message wrapping of a failed `read_dir`, as formatted in
`process_sources`. -/
def readDirFailMsg (e : Str) : Str := str "Failed to read directory: " ++ e

/-- Expansion of one source token in the loop of `process_sources`:
a bare `*` lists the current directory; a longer token ending in `*`
strips the star and lists the named directory (the `len() > 1` guard is
kept even though the bare-`*` case already caught length one); any
other token passes through as a single literal path. -/
def expandToken (fs : FS) (source : Str) : Except Str (List Str) :=
  if source = ['*'] then
    match fs.readDir (str ".") with
    | Except.ok l => Except.ok l
    | Except.error e => Except.error (readDirFailMsg e)
  else if source.getLast? = some '*' then
    let path := if source.length > 1 then source.dropLast else str "."
    match fs.readDir path with
    | Except.ok l => Except.ok l
    | Except.error e => Except.error (readDirFailMsg e)
  else
    Except.ok [source]

/-- The accumulation loop of `process_sources`: expand each token in
input order and concatenate the results, propagating the first
expansion error immediately (the `?` operator). -/
def expandAll (fs : FS) : List Str → Except Str (List Str)
  | [] => Except.ok []
  | s :: rest =>
    match expandToken fs s with
    | Except.error e => Except.error e
    | Except.ok l =>
      match expandAll fs rest with
      | Except.error e => Except.error e
      | Except.ok r => Except.ok (l ++ r)

/-- Interleaving of a separator between rendered path strings, modelling
`files_str.join("; ")`. -/
def joinSemi : List Str → Str
  | [] => []
  | [p] => p
  | p :: rest => p ++ str "; " ++ joinSemi rest

/-- The pre-dispatch audit line of `process_sources`. -/
def transferLogMsg (operation : FileOperation) (paths : List Str) (dest : Str) : Str :=
  operation.as_str ++ str ": \"" ++ joinSemi paths ++ str "\" --> \"" ++ dest ++ str "\""

/-- Model of `process_sources`: expand every token (failing the whole
batch on the first expansion error, before any effect), write the audit
line naming the operation, full path list and destination, dispatch the
single bulk-transfer request, and on failure log the error again and
propagate it. -/
def process_sources (fs : FS) (cap : ShellCap) (sources : List Str) (dest : Str)
    (operation : FileOperation) : Except Str Unit × List Effect :=
  match expandAll fs sources with
  | Except.error e => (Except.error e, [])
  | Except.ok all_paths =>
    let pre := Effect.log (transferLogMsg operation all_paths dest)
    match win32_shell_operation cap all_paths dest operation with
    | (Except.ok _, eff) => (Except.ok (), pre :: eff)
    | (Except.error e, eff) => (Except.error e, pre :: eff ++ [Effect.log e])

/-- Projection of the bulk-transfer dispatches out of an effect trace. -/
def shellCallsOf (effs : List Effect) : List (List Str × Str × FileOperation) :=
  effs.filterMap fun e =>
    match e with
    | Effect.shellCall s d op => some (s, d, op)
    | _ => none

/-! Deleted-item catalog and interactive session (`src/bin/recyclebin.rs`). -/

/-- Timestamps, abstracted to integers. -/
abbrev Time := Int

/-- One entry of the deleted-items snapshot (`RecycleBinItem`). -/
structure RecycleBinItem where
  name : Str
  original_path : Str
  delete_date : Time
  size : Nat
deriving DecidableEq, Inhabited

/-- One raw entry of the OS deleted-items store as seen through the
enumeration capability: the two display-name queries may each fail, and
the store also carries the genuine metadata, which the enumeration code
never asks for. -/
structure StoreEntry where
  nameRes : Option Str
  pathRes : Option Str
  realDeleteDate : Time
  realSize : Nat
deriving DecidableEq

/-- Model of `list_recycle_bin`: walk the store entries in order; an
entry whose display name resolves and whose parsing path resolves is
pushed with `delete_date` set to the wall-clock time of the call
(`Local::now()`) and `size` set to `0`; any other entry is skipped. -/
def list_recycle_bin (now : Time) (entries : List StoreEntry) : List RecycleBinItem :=
  entries.filterMap fun e =>
    match e.nameRes with
    | none => none
    | some name =>
      match e.pathRes with
      | none => none
      | some path =>
        some { name := name, original_path := path, delete_date := now, size := 0 }

/-- Model of `restore_item`: prints a message (presentation, out of
scope) and unconditionally returns `Ok(())`. -/
def restore_item (_item : RecycleBinItem) : Except Str Unit := Except.ok ()

/-- Model of `delete_item_permanently`: prints a message (presentation,
out of scope) and unconditionally returns `Ok(())`. -/
def delete_item_permanently (_item : RecycleBinItem) : Except Str Unit := Except.ok ()

/-- Lowercasing of a string, modelling `str::to_lowercase`. -/
def toLowerStr (s : Str) : Str := s.map Char.toLower

/-- Substring test modelling Rust `str::contains(&str)`. -/
def containsSlice (needle : Str) : Str → Bool
  | [] => needle.isEmpty
  | c :: t => needle.isPrefixOf (c :: t) || containsSlice needle t

/-- State of the interactive session between loop iterations: the
simulated contents of the deleted-items store, and the current
in-memory snapshot (`items`). -/
structure SessionState where
  store : List RecycleBinItem
  items : List RecycleBinItem
deriving DecidableEq

/-- Store-capability invocations performed by one loop iteration. -/
inductive CapCall : Type
  | enumerate : CapCall
  | restore : RecycleBinItem → CapCall
  | delete : RecycleBinItem → CapCall
  | clear : CapCall
deriving DecidableEq

/-- User-visible outcomes printed by one loop iteration (colour and
exact wording abstracted away). -/
inductive Output : Type
  | display : List RecycleBinItem → Output
  | invalidSelection : Output
  | failedRestore : RecycleBinItem → Str → Output
  | failedDelete : RecycleBinItem → Str → Output
  | failedClear : Str → Output
  | matchLine : Nat → RecycleBinItem → Output
  | noMatches : Output
deriving DecidableEq

/-- Recognizer for the per-item failure reports of the restore and
purge loops. -/
def isFailOutput : Output → Bool
  | Output.failedRestore _ _ => true
  | Output.failedDelete _ _ => true
  | _ => false

/-- The simulated deleted-items store capability: each operation says
how the store contents change and what result the session code sees. -/
structure Caps where
  restoreOp : List RecycleBinItem → RecycleBinItem → List RecycleBinItem × Except Str Unit
  deleteOp : List RecycleBinItem → RecycleBinItem → List RecycleBinItem × Except Str Unit
  clearOp : List RecycleBinItem → List RecycleBinItem × Except Str Unit

/-- Simulated store whose restore and purge remove the item and report
what the code's `restore_item` / `delete_item_permanently` report, and
whose clear empties the store. -/
def simCaps : Caps where
  restoreOp := fun s it => (s.erase it, restore_item it)
  deleteOp := fun s it => (s.erase it, delete_item_permanently it)
  clearOp := fun _ => ([], Except.ok ())

/-- The selection-processing loops of `interactive_mode`: walk the
parsed indices in order, look the item up in the unchanged snapshot,
invoke restore (action `r`) or permanent deletion (otherwise `d`), and
report a per-item failure without stopping. -/
def runSelection (caps : Caps) (items : List RecycleBinItem) (action : Char) :
    List Nat → List RecycleBinItem → List RecycleBinItem × List Output × List CapCall
  | [], store => (store, [], [])
  | idx :: rest, store =>
    let it := items.getD idx default
    let rec1 :=
      if action = 'r' then
        match caps.restoreOp store it with
        | (s1, Except.ok _) => (s1, ([] : List Output), [CapCall.restore it])
        | (s1, Except.error e) => (s1, [Output.failedRestore it e], [CapCall.restore it])
      else
        match caps.deleteOp store it with
        | (s1, Except.ok _) => (s1, ([] : List Output), [CapCall.delete it])
        | (s1, Except.error e) => (s1, [Output.failedDelete it e], [CapCall.delete it])
    let rest1 := runSelection caps items action rest rec1.1
    (rest1.1, rec1.2.1 ++ rest1.2.1, rec1.2.2 ++ rest1.2.2)

/-- The search loop of `interactive_mode`: enumerate the snapshot with
its index, and print a line (carrying the one-based index `idx + 1`)
for every item whose lowercased display name contains the command. -/
def matchesFrom (cmd : Str) : Nat → List RecycleBinItem → List Output
  | _, [] => []
  | idx, item :: rest =>
    if containsSlice cmd (toLowerStr item.name) then
      Output.matchLine (idx + 1) item :: matchesFrom cmd (idx + 1) rest
    else
      matchesFrom cmd (idx + 1) rest

/-- Result of one iteration of the interactive loop: the next state
(`none` when the loop breaks), the outputs printed, and the
store-capability calls made, in order. -/
structure StepOut where
  next : Option SessionState
  outputs : List Output
  calls : List CapCall
deriving DecidableEq

/-- One iteration of the loop of `interactive_mode`, driven by one line
of user text: trim and lowercase it; empty input re-enumerates and
re-displays; `q`/`x`/`exit`/`quit` breaks; `c` clears and re-enumerates
(terminating when the store came up empty, keeping the old snapshot on
failure); a command ending in `r` or `d` parses the rest as a selection
against the snapshot length, walks the selected items, re-enumerates
and terminates when the store became empty; anything else searches the
current snapshot without touching the store. -/
def step (caps : Caps) (st : SessionState) (input : Str) : StepOut :=
  let cmd := toLowerStr (trim input)
  if cmd = [] then
    { next := some { store := st.store, items := st.store }
      outputs := [Output.display st.store]
      calls := [CapCall.enumerate] }
  else if cmd = str "q" ∨ cmd = str "x" ∨ cmd = str "exit" ∨ cmd = str "quit" then
    { next := none, outputs := [], calls := [] }
  else if cmd = str "c" then
    match caps.clearOp st.store with
    | (store1, Except.ok _) =>
      if store1 = [] then
        { next := none
          outputs := [Output.display store1]
          calls := [CapCall.clear, CapCall.enumerate] }
      else
        { next := some { store := store1, items := store1 }
          outputs := [Output.display store1]
          calls := [CapCall.clear, CapCall.enumerate] }
    | (store1, Except.error e) =>
      { next := some { store := store1, items := st.items }
        outputs := [Output.failedClear e]
        calls := [CapCall.clear] }
  else if cmd.getLast? = some 'r' ∨ cmd.getLast? = some 'd' then
    let action := cmd.getLastD ' '
    let numPart := cmd.dropLast
    let indices := parse_indices numPart st.items.length
    if indices = [] then
      { next := some st, outputs := [Output.invalidSelection], calls := [] }
    else
      let r := runSelection caps st.items action indices st.store
      if r.1 = [] then
        { next := none
          outputs := r.2.1 ++ [Output.display r.1]
          calls := r.2.2 ++ [CapCall.enumerate] }
      else
        { next := some { store := r.1, items := r.1 }
          outputs := r.2.1 ++ [Output.display r.1]
          calls := r.2.2 ++ [CapCall.enumerate] }
  else
    let ms := matchesFrom cmd 0 st.items
    if ms = [] then
      { next := some st, outputs := [Output.noMatches], calls := [] }
    else
      { next := some st, outputs := ms, calls := [] }

/-! Concrete fixtures used to instantiate the general theorems. -/

/-- Fixture item named alpha. -/
def itA : RecycleBinItem := { name := str "alpha", original_path := str "c:\\a", delete_date := 1, size := 0 }

/-- Fixture item named beta. -/
def itB : RecycleBinItem := { name := str "beta", original_path := str "c:\\b", delete_date := 2, size := 0 }

/-- Fixture item named gamma. -/
def itC : RecycleBinItem := { name := str "gamma", original_path := str "c:\\c", delete_date := 3, size := 0 }

/-- Fixture capability that reports a user abort together with a
non-zero status code. -/
def abortCap : ShellCap := fun _ _ _ => { code := 5, aborted := true }

/-- Fixture capability that succeeds. -/
def okCap : ShellCap := fun _ _ _ => { code := 0, aborted := false }

/-- Fixture filesystem on which every directory listing is empty. -/
def fsEmptyDot : FS := { readDir := fun _ => Except.ok [] }

/-- Fixture filesystem on which listing the directory named bad fails
and every other listing is empty. -/
def fsBad : FS :=
  { readDir := fun p => if p = str "bad" then Except.error (str "denied") else Except.ok [] }

/-- Fixture filesystem on which the directory named dir holds two
entries. -/
def fsDir : FS :=
  { readDir := fun p =>
      if p = str "dir" then Except.ok [str "dir/p.txt", str "dir/q.txt"] else Except.ok [] }

/-- Fixture store entry carrying genuine metadata (a real deletion
timestamp and a non-zero size) that the enumeration code ignores. -/
def entryReal : StoreEntry :=
  { nameRes := some (str "alpha"), pathRes := some (str "c:\\a"),
    realDeleteDate := 123, realSize := 4096 }

/-! Theorems about the selection parser. -/

/-- A chain that is linked by both weak inequality and disequality is
linked by strict inequality. -/
theorem chain'_lt_of_le_ne : ∀ (l : List Nat),
    l.Chain' (· ≤ ·) → l.Chain' (· ≠ ·) → l.Chain' (· < ·)
  | [], _, _ => List.chain'_nil
  | [a], _, _ => List.chain'_singleton a
  | a :: b :: t, hle, hne => by
    rw [List.chain'_cons] at hle hne ⊢
    exact ⟨lt_of_le_of_ne hle.1 hne.1, chain'_lt_of_le_ne (b :: t) hle.2 hne.2⟩

/-- On a strictly increasing list, the sort-then-dedup pass of
`parse_indices` is the identity. -/
theorem sortDedup_eq_self (l : List Nat) (h : l.Pairwise (· < ·)) :
    (l.insertionSort (· ≤ ·)).destutter (· ≠ ·) = l := by
  have hle : l.Sorted (· ≤ ·) := h.imp le_of_lt
  rw [List.Sorted.insertionSort_eq hle]
  exact List.destutter_of_chain' _ l ((h.imp ne_of_lt).chain')

/-- Inversion of the window guard. -/
theorem keepIdx_some {count num i : Nat} (h : keepIdx count num = some i) :
    0 < num ∧ num ≤ count ∧ i = num - 1 := by
  unfold keepIdx at h
  split at h
  next hcond => exact ⟨hcond.1, hcond.2, (Option.some.inj h).symm⟩
  next => exact absurd h (by simp)

/-- Any value surviving the window guard is a valid zero-based index. -/
theorem keepIdx_lt {count num i : Nat} (h : keepIdx count num = some i) : i < count := by
  obtain ⟨h1, h2, h3⟩ := keepIdx_some h
  omega

/-- Any value surviving trim, parse and the window guard is a valid
zero-based index. -/
theorem parseKeep_lt {count : Nat} {part : Str} {i : Nat} (h : parseKeep count part = some i) :
    i < count := by
  unfold parseKeep at h
  split at h
  · exact keepIdx_lt h
  · exact absurd h (by simp)

/-- Every raw index collected by a branch of `parse_indices` passed the
guard keeping one-based values inside the bound, so its zero-based form
is below the bound. -/
theorem parse_indices_raw_lt (input : Str) (count : Nat) :
    ∀ i ∈ parse_indices_raw input count, i < count := by
  intro i hi
  unfold parse_indices_raw at hi
  by_cases hc : input.contains ','
  · rw [if_pos hc] at hi
    obtain ⟨part, -, hp⟩ := List.mem_filterMap.mp hi
    exact parseKeep_lt hp
  · rw [if_neg hc] at hi
    by_cases hd : input.contains '-'
    · rw [if_pos hd] at hi
      simp only [] at hi
      split at hi
      · split at hi
        · obtain ⟨j, -, hp⟩ := List.mem_filterMap.mp hi
          exact keepIdx_lt hp
        · exact absurd hi (by simp)
      · exact absurd hi (by simp)
    · rw [if_neg hd] at hi
      split at hi
      · exact keepIdx_lt (by simpa using hi)
      · exact absurd hi (by simp)

/-- Claim C5: the selection parser is total by construction, and for
every input token and bound its result is strictly sorted ascending,
free of duplicates, and every member is a valid zero-based index below
the bound; malformed or out-of-range input only shrinks the set. -/
theorem claimC5_selection_set_invariant (input : Str) (count : Nat) :
    (parse_indices input count).Sorted (· < ·) ∧
    (parse_indices input count).Nodup ∧
    ∀ i ∈ parse_indices input count, i < count := by
  have hsle : ((parse_indices_raw input count).insertionSort (· ≤ ·)).Sorted (· ≤ ·) :=
    List.sorted_insertionSort _ _
  have hsub : List.Sublist (parse_indices input count)
      ((parse_indices_raw input count).insertionSort (· ≤ ·)) :=
    List.destutter_sublist _ _
  have hled : (parse_indices input count).Sorted (· ≤ ·) := List.Pairwise.sublist hsub hsle
  have hne : (parse_indices input count).Chain' (· ≠ ·) := List.destutter_is_chain' _ _
  have hlt : (parse_indices input count).Pairwise (· < ·) :=
    List.chain'_iff_pairwise.mp (chain'_lt_of_le_ne _ hled.chain' hne)
  refine ⟨hlt, hlt.imp ne_of_lt, fun i hi => ?_⟩
  have hmem : i ∈ parse_indices_raw input count :=
    (List.perm_insertionSort (· ≤ ·) (parse_indices_raw input count)).mem_iff.mp
      (hsub.subset hi)
  exact parse_indices_raw_lt input count i hmem

/-- Witness for C5 at a concrete comma list. -/
theorem claimC5_witness :
    (parse_indices (str "3,1,3") 10).Sorted (· < ·) ∧
    (parse_indices (str "3,1,3") 10).Nodup ∧
    (2 ∈ parse_indices (str "3,1,3") 10 → 2 < 10) :=
  ⟨(claimC5_selection_set_invariant (str "3,1,3") 10).1,
   (claimC5_selection_set_invariant (str "3,1,3") 10).2.1,
   fun h => (claimC5_selection_set_invariant (str "3,1,3") 10).2.2 2 h⟩

/-- Claim C4: on a token containing a dash and no comma that splits
into exactly two parts both parsing as unsigned integers, the parser
returns the inclusive range from start to stop, filtered to the
one-based window and shifted to zero-based, and the range is empty when
start exceeds stop (no automatic swap). -/
theorem claimC4_range_semantics (input : Str) (count : Nat) (p₁ p₂ : Str) (s e : Nat)
    (hc : input.contains ',' = false)
    (hd : input.contains '-' = true)
    (hs : splitOnChar '-' input = [p₁, p₂])
    (h₁ : parseUsize (trim p₁) = some s)
    (h₂ : parseUsize (trim p₂) = some e) :
    parse_indices input count =
      ((List.range' s (e + 1 - s)).filter fun i => decide (0 < i ∧ i ≤ count)).map (· - 1) ∧
    (e < s → parse_indices input count = []) := by
  have hraw : parse_indices_raw input count =
      (List.range' s (e + 1 - s)).filterMap (keepIdx count) := by
    unfold parse_indices_raw
    rw [if_neg (by rw [hc]; simp), if_pos hd, hs]
    simp [h₁, h₂]
  have hpw : ((List.range' s (e + 1 - s)).filterMap (keepIdx count)).Pairwise (· < ·) := by
    refine List.Pairwise.filterMap _ ?_ (List.pairwise_lt_range' s (e + 1 - s))
    intro a b hab x hx y hy
    rw [Option.mem_def] at hx hy
    obtain ⟨ha1, -, rfl⟩ := keepIdx_some hx
    obtain ⟨hb1, -, rfl⟩ := keepIdx_some hy
    omega
  have hmain : parse_indices input count =
      (List.range' s (e + 1 - s)).filterMap (keepIdx count) := by
    rw [parse_indices, hraw, sortDedup_eq_self _ hpw]
  have hform : ∀ L : List Nat, L.filterMap (keepIdx count) =
      (L.filter fun i => decide (0 < i ∧ i ≤ count)).map (· - 1) := by
    intro L
    induction L with
    | nil => rfl
    | cons a t ih =>
      by_cases h : 0 < a ∧ a ≤ count
      · simp [keepIdx, h, List.filterMap_cons, List.filter_cons, ih]
      · simp [keepIdx, h, List.filterMap_cons, List.filter_cons, ih]
  constructor
  · rw [hmain, hform]
  · intro hlt
    rw [hmain]
    have hz : e + 1 - s = 0 := by omega
    rw [hz]
    rfl

/-- Witness for C4 at the spec's two examples, derived from the general
theorem. -/
theorem claimC4_witness :
    parse_indices (str "2-5") 10 = [1, 2, 3, 4] ∧ parse_indices (str "5-2") 10 = [] :=
  ⟨((claimC4_range_semantics (str "2-5") 10 (str "2") (str "5") 2 5 rfl rfl (by decide)
      (by decide) (by decide)).1).trans (by decide),
   (claimC4_range_semantics (str "5-2") 10 (str "5") (str "2") 5 2 rfl rfl (by decide)
      (by decide) (by decide)).2 (by decide)⟩

/-! Theorems about the batch transfer engine. -/

/-- Claim C2: for every transfer request, if the bulk-transfer
capability sets the any-operation-aborted flag, the engine returns the
aborted-by-user outcome `Ok(false)` regardless of the numeric status
code, with no error and no error log. -/
theorem claimC2_abort_flag_yields_aborted_outcome (cap : ShellCap) (sources : List Str)
    (dest : Str) (operation : FileOperation)
    (h : (cap sources dest operation).aborted = true) :
    win32_shell_operation cap sources dest operation =
      (Except.ok false, [Effect.shellCall sources dest operation]) := by
  simp [win32_shell_operation, h]

/-- Witness for C2 at a capability returning status code 5 with the
abort flag set. -/
theorem claimC2_witness :
    (abortCap [] (str "d") FileOperation.Copy).aborted = true ∧
    win32_shell_operation abortCap [] (str "d") FileOperation.Copy =
      (Except.ok false, [Effect.shellCall [] (str "d") FileOperation.Copy]) :=
  ⟨rfl, claimC2_abort_flag_yields_aborted_outcome abortCap [] (str "d") FileOperation.Copy rfl⟩

/-- Claim C10: if reading the directory for any wildcard token fails
during expansion, `process_sources` returns that error with an empty
effect trace: no audit record is written and no transfer is dispatched,
not even for tokens that had already expanded successfully. -/
theorem claimC10_expansion_failure_atomic (fs : FS) (cap : ShellCap) (sources : List Str)
    (dest : Str) (operation : FileOperation) (e : Str)
    (h : expandAll fs sources = Except.error e) :
    process_sources fs cap sources dest operation = (Except.error e, []) := by
  simp [process_sources, h]

/-- Witness for C10: the first token expands successfully, the second
token's directory read fails, and the whole batch aborts effect-free. -/
theorem claimC10_witness :
    expandAll fsBad [str "a.txt", str "bad*"] =
      Except.error (readDirFailMsg (str "denied")) ∧
    process_sources fsBad okCap [str "a.txt", str "bad*"] (str "dest") FileOperation.Copy =
      (Except.error (readDirFailMsg (str "denied")), []) :=
  ⟨by decide,
    claimC10_expansion_failure_atomic fsBad okCap [str "a.txt", str "bad*"] (str "dest")
      FileOperation.Copy (readDirFailMsg (str "denied")) (by decide)⟩

/-- Counterexample to claim C3: with every wildcard expanding to zero
paths, `process_sources` still dispatches a bulk-transfer request, whose
source list is empty. -/
theorem claimC3_counterexample :
    shellCallsOf
        (process_sources fsEmptyDot okCap [str "*"] (str "dest") FileOperation.Copy).2 =
      [([], str "dest", FileOperation.Copy)] := by decide

/-- Helper: whenever expansion succeeds, the effect trace of
`process_sources` holds exactly one bulk-transfer dispatch, carrying the
expansion result as its source list. -/
theorem processSources_shellCalls (fs : FS) (cap : ShellCap)
    (sources : List Str) (dest : Str) (operation : FileOperation) (l : List Str)
    (h : expandAll fs sources = Except.ok l) :
    shellCallsOf (process_sources fs cap sources dest operation).2 = [(l, dest, operation)] := by
  simp only [process_sources, h, win32_shell_operation]
  by_cases ha : (cap l dest operation).aborted
  · simp [ha, shellCallsOf]
  · by_cases hc : (cap l dest operation).code = 0
    · simp [ha, hc, shellCallsOf]
    · simp [ha, hc, shellCallsOf]

/-- Claim C3 as amended: whenever expansion of the accepted token list
succeeds, exactly one bulk-transfer request is dispatched and its source
list is exactly the concatenated expansion result, which may be empty;
in particular a dispatch with an empty source list occurs when wildcard
expansion of every token produces zero paths. -/
theorem claimC3_amended_dispatch_carries_expansion (fs : FS) (cap : ShellCap)
    (sources : List Str) (dest : Str) (operation : FileOperation) (l : List Str)
    (h : expandAll fs sources = Except.ok l) :
    shellCallsOf (process_sources fs cap sources dest operation).2 = [(l, dest, operation)] :=
  processSources_shellCalls fs cap sources dest operation l h

/-- Witness for the amended C3 at a literal one-token list. -/
theorem claimC3_amended_witness :
    expandAll fsEmptyDot [str "a.txt"] = Except.ok [str "a.txt"] ∧
    shellCallsOf
        (process_sources fsEmptyDot okCap [str "a.txt"] (str "dest") FileOperation.Move).2 =
      [([str "a.txt"], str "dest", FileOperation.Move)] :=
  ⟨by decide,
    claimC3_amended_dispatch_carries_expansion fsEmptyDot okCap [str "a.txt"] (str "dest")
      FileOperation.Move [str "a.txt"] (by decide)⟩

/-- Expansion distributes over concatenation of token lists: the
per-token results are concatenated in input order. -/
theorem expandAll_append (fs : FS) (ts₁ ts₂ : List Str) (l₁ l₂ : List Str)
    (h₁ : expandAll fs ts₁ = Except.ok l₁) (h₂ : expandAll fs ts₂ = Except.ok l₂) :
    expandAll fs (ts₁ ++ ts₂) = Except.ok (l₁ ++ l₂) := by
  induction ts₁ generalizing l₁ with
  | nil =>
    simp only [expandAll, Except.ok.injEq] at h₁
    subst h₁
    simpa using h₂
  | cons t rest ih =>
    rw [List.cons_append]
    unfold expandAll at h₁ ⊢
    rcases ht : expandToken fs t with e | l <;> rw [ht] at h₁
    · exact absurd h₁ (by simp)
    · rcases hr : expandAll fs rest with e | r <;> rw [hr] at h₁
      · exact absurd h₁ (by simp)
      · simp only [Except.ok.injEq] at h₁
        rw [ih r hr]
        simp [← h₁]

/-- Claim C6: path expansion concatenates per-token results in input
order without cross-token deduplication; a duplicated wildcard token
duplicates every matched path, and the duplicated list is what the
single dispatched transfer request carries. -/
theorem claimC6_no_cross_token_dedup :
    (∀ (fs : FS) (ts₁ ts₂ : List Str) (l₁ l₂ : List Str),
        expandAll fs ts₁ = Except.ok l₁ → expandAll fs ts₂ = Except.ok l₂ →
          expandAll fs (ts₁ ++ ts₂) = Except.ok (l₁ ++ l₂)) ∧
    ∀ (fs : FS) (t : Str) (l : List Str), expandToken fs t = Except.ok l →
      expandAll fs [t, t] = Except.ok (l ++ l) ∧
      (∀ p, (l ++ l).count p = 2 * l.count p) ∧
      ∀ (cap : ShellCap) (dest : Str) (operation : FileOperation),
        shellCallsOf (process_sources fs cap [t, t] dest operation).2 =
          [(l ++ l, dest, operation)] := by
  constructor
  · exact expandAll_append
  · intro fs t l h
    have hall : expandAll fs [t, t] = Except.ok (l ++ l) := by
      simp [expandAll, h]
    refine ⟨hall, fun p => ?_, fun cap dest operation => ?_⟩
    · rw [List.count_append, Nat.two_mul]
    · exact processSources_shellCalls fs cap [t, t] dest operation (l ++ l) hall

/-- Witness for C6: the overlapping wildcard token dir* repeated twice
yields each of the two matched paths twice, and both copies are in the
one dispatched request. -/
theorem claimC6_witness :
    expandToken fsDir (str "dir*") = Except.ok [str "dir/p.txt", str "dir/q.txt"] ∧
    expandAll fsDir [str "dir*", str "dir*"] =
      Except.ok [str "dir/p.txt", str "dir/q.txt", str "dir/p.txt", str "dir/q.txt"] ∧
    ([str "dir/p.txt", str "dir/q.txt", str "dir/p.txt", str "dir/q.txt"] :
        List Str).count (str "dir/p.txt") = 2 ∧
    shellCallsOf
        (process_sources fsDir okCap [str "dir*", str "dir*"] (str "dest")
            FileOperation.Copy).2 =
      [([str "dir/p.txt", str "dir/q.txt", str "dir/p.txt", str "dir/q.txt"],
        str "dest", FileOperation.Copy)] := by
  have h := claimC6_no_cross_token_dedup.2 fsDir (str "dir*")
    [str "dir/p.txt", str "dir/q.txt"] (by decide)
  exact ⟨by decide, h.1, by decide, h.2.2 okCap (str "dest") FileOperation.Copy⟩

/-- Claim C9: every item produced by catalog enumeration carries
placeholder metadata: size 0 and the enumeration call's wall-clock time
as deletion date, never the store's genuine metadata. -/
theorem claimC9_placeholder_metadata (now : Time) (entries : List StoreEntry)
    (item : RecycleBinItem) (h : item ∈ list_recycle_bin now entries) :
    item.size = 0 ∧ item.delete_date = now := by
  obtain ⟨e, -, he⟩ := List.mem_filterMap.mp h
  rcases hn : e.nameRes with - | name <;> rw [hn] at he
  · exact absurd he (by simp)
  · rcases hp : e.pathRes with - | path <;> rw [hp] at he
    · exact absurd he (by simp)
    · simp only [Option.some.injEq] at he
      subst he
      exact ⟨rfl, rfl⟩

/-- Witness for C9 on a store entry whose genuine metadata (timestamp
123, size 4096) differs from the placeholders. -/
theorem claimC9_witness :
    { name := str "alpha", original_path := str "c:\\a",
      delete_date := 7, size := 0 : RecycleBinItem } ∈ list_recycle_bin 7 [entryReal] ∧
    ({ name := str "alpha", original_path := str "c:\\a",
       delete_date := 7, size := 0 : RecycleBinItem }).size = 0 ∧
    ({ name := str "alpha", original_path := str "c:\\a",
       delete_date := 7, size := 0 : RecycleBinItem }).delete_date = 7 :=
  ⟨by decide, claimC9_placeholder_metadata 7 [entryReal] _ (by decide)⟩

/-! Theorems about the interactive session. -/

/-- Every line printed by the search loop carries the one-based
position, counted from `k`, of an item of the searched snapshot whose
lowercased name contains the command. -/
theorem matchesFrom_spec (cmd : Str) (items : List RecycleBinItem) : ∀ (k : Nat) (out : Output),
    out ∈ matchesFrom cmd k items →
      ∃ j item, out = Output.matchLine (k + j + 1) item ∧ items.get? j = some item ∧
        containsSlice cmd (toLowerStr item.name) = true := by
  induction items with
  | nil => intro k out hout; exact absurd hout (by simp [matchesFrom])
  | cons item rest ih =>
    intro k out hout
    unfold matchesFrom at hout
    by_cases hm : containsSlice cmd (toLowerStr item.name)
    · rw [if_pos hm] at hout
      rcases List.mem_cons.mp hout with h | h
      · exact ⟨0, item, by simpa using h, rfl, hm⟩
      · obtain ⟨j, it, h1, h2, h3⟩ := ih (k + 1) out h
        refine ⟨j + 1, it, ?_, by simpa using h2, h3⟩
        rw [h1]
        congr 1
        omega
    · rw [if_neg hm] at hout
      obtain ⟨j, it, h1, h2, h3⟩ := ih (k + 1) out hout
      refine ⟨j + 1, it, ?_, by simpa using h2, h3⟩
      rw [h1]
      congr 1
      omega

/-- Claim C7: a search command, meaning any input that is not empty,
not a quit word, not the clear command and does not end in r or d,
leaves the store and the snapshot untouched, makes no store-capability
call, produces output independent of the store underneath, and reports
each match against the current un-refreshed snapshot under its original
pre-search index. -/
theorem claimC7_search_is_pure (caps : Caps) (store₁ store₂ items : List RecycleBinItem)
    (input : Str)
    (h0 : toLowerStr (trim input) ≠ [])
    (h1 : ¬(toLowerStr (trim input) = str "q" ∨ toLowerStr (trim input) = str "x" ∨
        toLowerStr (trim input) = str "exit" ∨ toLowerStr (trim input) = str "quit"))
    (h2 : toLowerStr (trim input) ≠ str "c")
    (h3 : ¬((toLowerStr (trim input)).getLast? = some 'r' ∨
        (toLowerStr (trim input)).getLast? = some 'd')) :
    (step caps { store := store₁, items := items } input).next =
      some { store := store₁, items := items } ∧
    (step caps { store := store₁, items := items } input).calls = [] ∧
    (step caps { store := store₁, items := items } input).outputs =
      (step caps { store := store₂, items := items } input).outputs ∧
    ∀ out ∈ (step caps { store := store₁, items := items } input).outputs,
      out = Output.noMatches ∨
        ∃ idx item, out = Output.matchLine (idx + 1) item ∧ items.get? idx = some item ∧
          containsSlice (toLowerStr (trim input)) (toLowerStr item.name) = true := by
  have hstep : ∀ st : List RecycleBinItem,
      step caps { store := st, items := items } input =
        if matchesFrom (toLowerStr (trim input)) 0 items = [] then
          { next := some { store := st, items := items }
            outputs := [Output.noMatches], calls := [] }
        else
          { next := some { store := st, items := items }
            outputs := matchesFrom (toLowerStr (trim input)) 0 items, calls := [] } := by
    intro st
    simp only [step]
    rw [if_neg h0, if_neg h1, if_neg h2, if_neg h3]
  by_cases hms : matchesFrom (toLowerStr (trim input)) 0 items = []
  · refine ⟨?_, ?_, ?_, ?_⟩
    · rw [hstep store₁, if_pos hms]
    · rw [hstep store₁, if_pos hms]
    · rw [hstep store₁, hstep store₂, if_pos hms, if_pos hms]
    · rw [hstep store₁, if_pos hms]
      intro out hout
      left
      simpa using hout
  · refine ⟨?_, ?_, ?_, ?_⟩
    · rw [hstep store₁, if_neg hms]
    · rw [hstep store₁, if_neg hms]
    · rw [hstep store₁, hstep store₂, if_neg hms, if_neg hms]
    · rw [hstep store₁, if_neg hms]
      intro out hout
      right
      obtain ⟨j, it, h1, h2, h3⟩ := matchesFrom_spec (toLowerStr (trim input)) items 0 out hout
      exact ⟨j, it, by simpa using h1, h2, h3⟩

/-- Witness for C7: searching for alp over the stale two-item snapshot
behaves identically whether the simulated store still holds one item or
was emptied underneath. -/
theorem claimC7_witness :
    (step simCaps { store := [itA], items := [itA, itB] } (str "alp")).next =
      some { store := [itA], items := [itA, itB] } ∧
    (step simCaps { store := [itA], items := [itA, itB] } (str "alp")).calls = [] ∧
    (step simCaps { store := [itA], items := [itA, itB] } (str "alp")).outputs =
      (step simCaps { store := [], items := [itA, itB] } (str "alp")).outputs :=
  ⟨(claimC7_search_is_pure simCaps [itA] [] [itA, itB] (str "alp") (by decide) (by decide)
      (by decide) (by decide)).1,
   (claimC7_search_is_pure simCaps [itA] [] [itA, itB] (str "alp") (by decide) (by decide)
      (by decide) (by decide)).2.1,
   (claimC7_search_is_pure simCaps [itA] [] [itA, itB] (str "alp") (by decide) (by decide)
      (by decide) (by decide)).2.2.1⟩

/-- When the capability's per-item results are the code's own
`restore_item` and `delete_item_permanently`, the selection loops never
produce a per-item failure report. -/
theorem runSelection_no_fail (caps : Caps)
    (hr : ∀ s it, (caps.restoreOp s it).2 = restore_item it)
    (hd : ∀ s it, (caps.deleteOp s it).2 = delete_item_permanently it)
    (items : List RecycleBinItem) (action : Char) :
    ∀ (indices : List Nat) (store : List RecycleBinItem),
      ∀ out ∈ (runSelection caps items action indices store).2.1,
        isFailOutput out = false := by
  intro indices
  induction indices with
  | nil => intro store out hout; exact absurd hout (by simp [runSelection])
  | cons idx rest ih =>
    intro store out hout
    simp only [runSelection] at hout
    by_cases ha : action = 'r'
    · rw [if_pos ha] at hout
      rcases hro : caps.restoreOp store (items.getD idx default) with ⟨s1, r⟩
      rw [hro] at hout
      have hrok : r = Except.ok () := by
        have h := hr store (items.getD idx default)
        rw [hro] at h
        simpa [restore_item] using h
      subst hrok
      simp only [List.nil_append] at hout
      exact ih s1 out hout
    · rw [if_neg ha] at hout
      rcases hro : caps.deleteOp store (items.getD idx default) with ⟨s1, r⟩
      rw [hro] at hout
      have hrok : r = Except.ok () := by
        have h := hd store (items.getD idx default)
        rw [hro] at h
        simpa [delete_item_permanently] using h
      subst hrok
      simp only [List.nil_append] at hout
      exact ih s1 out hout

/-- Claim C8: the code's `restore_item` and `delete_item_permanently`
always return success, so, for any store capability returning their
results, the per-item failed-to-restore and failed-to-delete reporting
branches of the interactive loop are unreachable. -/
theorem claimC8_item_ops_never_fail :
    (∀ item, restore_item item = Except.ok () ∧ delete_item_permanently item = Except.ok ()) ∧
    ∀ caps : Caps,
      (∀ s it, (caps.restoreOp s it).2 = restore_item it) →
      (∀ s it, (caps.deleteOp s it).2 = delete_item_permanently it) →
      ∀ (st : SessionState) (input : Str) (out : Output),
        out ∈ (step caps st input).outputs → isFailOutput out = false := by
  refine ⟨fun item => ⟨rfl, rfl⟩, fun caps hr hd st input out hout => ?_⟩
  simp only [step] at hout
  split at hout
  · obtain rfl : out = Output.display st.store := by simpa using hout
    rfl
  · split at hout
    · exact absurd hout (by simp)
    · split at hout
      · rcases hclear : caps.clearOp st.store with ⟨s1, e | u⟩
        · rw [hclear] at hout
          have h2 : out = Output.failedClear e := by simpa using hout
          rw [h2]
          rfl
        · rw [hclear] at hout
          by_cases hs : s1 = []
          · have h2 : out = Output.display s1 := by simpa [hs] using hout
            rw [h2]
            rfl
          · have h2 : out = Output.display s1 := by simpa [hs] using hout
            rw [h2]
            rfl
      · split at hout
        · split at hout
          · obtain rfl : out = Output.invalidSelection := by simpa using hout
            rfl
          · split at hout
            · simp only [List.mem_append, List.mem_singleton] at hout
              rcases hout with h | h
              · exact runSelection_no_fail caps hr hd st.items _ _ st.store out h
              · rw [h]
                rfl
            · simp only [List.mem_append, List.mem_singleton] at hout
              rcases hout with h | h
              · exact runSelection_no_fail caps hr hd st.items _ _ st.store out h
              · rw [h]
                rfl
        · split at hout
          · obtain rfl : out = Output.noMatches := by simpa using hout
            rfl
          · have hout' : out ∈ matchesFrom (toLowerStr (trim input)) 0 st.items := by
              simpa using hout
            obtain ⟨j, it, h1, -, -⟩ :=
              matchesFrom_spec (toLowerStr (trim input)) st.items 0 out hout'
            rw [h1]
            rfl

/-- Witness for C8: the simulated store returns exactly the results of
the code's item operations, and a concrete loop iteration produces only
non-failure output. -/
theorem claimC8_witness : isFailOutput Output.invalidSelection = false :=
  claimC8_item_ops_never_fail.2 simCaps (fun _ _ => rfl) (fun _ _ => rfl)
    { store := [], items := [] } (str "1d") Output.invalidSelection (by decide)

/-- Claim C1: on the three-item snapshot, the purge command 2d invokes
the permanent-deletion capability on the second item only, and the
re-enumeration performed immediately afterwards yields the remaining
two items (over the simulated store). -/
theorem claimC1_purge_removes_selected (A B C : RecycleBinItem) (hAB : A ≠ B) :
    step simCaps { store := [A, B, C], items := [A, B, C] } (str "2d") =
      { next := some { store := [A, C], items := [A, C] }
        outputs := [Output.display [A, C]]
        calls := [CapCall.delete B, CapCall.enumerate] } := by
  have herase : [A, B, C].erase B = [A, C] := by
    simp [List.erase_cons, beq_eq_false_iff_ne.mpr hAB]
  have hrun : runSelection simCaps [A, B, C] 'd' [1] [A, B, C] =
      ([A, C], [], [CapCall.delete B]) := by
    simp [runSelection, simCaps, delete_item_permanently, herase]
  have c0 : ¬(toLowerStr (trim (str "2d")) = ([] : Str)) := by decide
  have c1 : ¬(toLowerStr (trim (str "2d")) = str "q" ∨ toLowerStr (trim (str "2d")) = str "x" ∨
      toLowerStr (trim (str "2d")) = str "exit" ∨
      toLowerStr (trim (str "2d")) = str "quit") := by decide
  have c2 : ¬(toLowerStr (trim (str "2d")) = str "c") := by decide
  have c3 : (toLowerStr (trim (str "2d"))).getLast? = some 'r' ∨
      (toLowerStr (trim (str "2d"))).getLast? = some 'd' := by decide
  simp only [step]
  rw [if_neg c0, if_neg c1, if_neg c2, if_pos c3]
  rw [show toLowerStr (trim (str "2d")) = str "2d" from by decide]
  have hpi : parse_indices (str "2d").dropLast ([A, B, C] : List RecycleBinItem).length = [1] := by
    rw [show ([A, B, C] : List RecycleBinItem).length = 3 from rfl]
    decide
  rw [hpi, if_neg (show ¬([1] : List Nat) = [] from by decide),
    show (str "2d").getLastD ' ' = 'd' from by decide, hrun]
  dsimp only
  rw [if_neg (show ¬([A, C] : List RecycleBinItem) = [] from by simp)]
  simp

/-- Witness for C1 at three concrete distinct items. -/
theorem claimC1_witness :
    step simCaps { store := [itA, itB, itC], items := [itA, itB, itC] } (str "2d") =
      { next := some { store := [itA, itC], items := [itA, itC] }
        outputs := [Output.display [itA, itC]]
        calls := [CapCall.delete itB, CapCall.enumerate] } :=
  claimC1_purge_removes_selected itA itB itC (by decide)

end Xcom
